import Mathlib

/-!
Verification development for the GUT RAG service.

The Python source is embedded shallowly:
* `config.py` constants become Lean constants;
* the Chroma vector store becomes a map from collection names to lists of
  vector records, the nearest-neighbour engine stays an abstract parameter;
* `ingestion.py` / `retrieval.py` become pure state-passing functions;
* `database.py` becomes explicit list-of-rows state with upsert semantics;
* `api.py` routes are modelled as the sequence of store operations they issue;
* `vision_extraction.py` is embedded together with a model of Python's
  `json.loads` and of the regex scan it performs.
Floats are modelled as rationals, timestamps as naturals.
-/

namespace GUT

/-! ## config.py -/

/-- config.py: TEXT_COLLECTION_NAME = "text_embeddings". -/
def TEXT_COLLECTION_NAME : String := "text_embeddings"

/-- config.py: CHUNK_SIZE = 1000. -/
def CHUNK_SIZE : Nat := 1000

/-- config.py: CHUNK_OVERLAP = 200. -/
def CHUNK_OVERLAP : Nat := 200

/-! ## Vector store model (chromadb as used by ingestion.py / retrieval.py) -/

/-- Embedding vectors; the embedding models are external, so only the shape
matters. -/
abbrev Vec := List ℚ

/-- One record of a Chroma collection: id, document text, embedding, and the
`source` entry of its metadata map (the only metadata key the text pipeline
writes or reads). -/
structure VecRecord where
  id : String
  document : String
  embedding : Vec
  source : String
deriving DecidableEq

/-- The persistent Chroma client: a map from collection name to the records of
that collection (`get_or_create_collection` semantics: every name denotes a
collection, initially empty). -/
abbrev VectorStore := String → List VecRecord

/-- A store in which every collection is newly created (empty). -/
def emptyStore : VectorStore := fun _ => []

/-- ingestion.py / retrieval.py `_init_chroma`: both classes compute
`collection_name = f"{TEXT_COLLECTION_NAME}_{client_id}"` and resolve the
tenant's collection by that name. -/
def textCollectionName (client_id : String) : String :=
  TEXT_COLLECTION_NAME ++ "_" ++ client_id

/-- `collection.add`: the batch of records becomes part of the named
collection. -/
def storeAdd (store : VectorStore) (name : String) (recs : List VecRecord) :
    VectorStore :=
  fun n => if n = name then store n ++ recs else store n

/-- Zip the four parallel argument lists of `collection.add(ids=..,
documents=.., embeddings=.., metadatas=..)` into records. -/
def zip4Records (ids docs : List String) (embs : List Vec)
    (srcs : List String) : List VecRecord :=
  (ids.zip (docs.zip (embs.zip srcs))).map fun p =>
    ⟨p.1, p.2.1, p.2.2.1, p.2.2.2⟩

/-- ingestion.py `TextIngestion.ingest_text`: split the text, embed all chunks
with one `embed_documents` batch call, build ids `f"{source}_{i}"` and
metadatas `[{"source": source}] * len(chunks)`, add the batch to the tenant's
collection, return the chunk count.  The splitter and the embedding gateway
are the external collaborators `splitText` and `embedDocuments`. -/
def ingest_text (embedDocuments : List String → List Vec)
    (splitText : String → List String) (client_id : String)
    (store : VectorStore) (text source : String) : VectorStore × Nat :=
  let chunks := splitText text
  let embeddings := embedDocuments chunks
  let ids := (List.range chunks.length).map fun i => source ++ "_" ++ toString i
  let metadatas := List.replicate chunks.length source
  let records := zip4Records ids chunks embeddings metadatas
  (storeAdd store (textCollectionName client_id) records, chunks.length)

/-! ## retrieval.py -/

/-- One element of the list `TextRetriever.search` returns:
`{"text": .., "source": .., "score": ..}`. -/
structure SearchDoc where
  text : String
  source : String
  score : ℚ
deriving DecidableEq

/-- The shape of `collection.query(..., include=["documents", "metadatas",
"distances"])`: parallel outer lists (one entry per query embedding), each
holding the parallel per-hit lists.  A metadata map is represented by its
optional `source` entry. -/
structure ChromaQueryResult where
  documents : List (List String)
  metadatas : List (List (Option String))
  distances : List (List ℚ)

/-- retrieval.py `TextRetriever.search`, the post-processing of the raw query
result: `if results["documents"] and results["documents"][0]:` then for each
`i, doc` in `enumerate(results["documents"][0])` emit text `doc`, source
`results["metadatas"][0][i].get("source", "unknown")` and score
`1 - results["distances"][0][i]`. -/
def searchFromResults (results : ChromaQueryResult) : List SearchDoc :=
  match results.documents with
  | [] => []
  | docs0 :: _ =>
    if docs0.isEmpty then []
    else docs0.enum.map fun p =>
      ⟨p.2,
       ((results.metadatas.getD 0 []).getD p.1 none).getD "unknown",
       1 - (results.distances.getD 0 []).getD p.1 0⟩

/-- Package the hits of the nearest-neighbour engine (record plus distance,
nearest first) into the result shape `collection.query` returns for a single
query embedding. -/
def chromaResultOfHits (hits : List (VecRecord × ℚ)) : ChromaQueryResult :=
  ⟨[hits.map fun h => h.1.document],
   [hits.map fun h => some h.1.source],
   [hits.map fun h => h.2]⟩

/-- retrieval.py `TextRetriever.search` end to end: embed the query, run the
abstract nearest-neighbour engine `indexQuery` against the tenant's own
collection, post-process.  `indexQuery coll v k` stands for
`collection.query(query_embeddings=[v], n_results=k)` on collection
contents `coll`. -/
def search (indexQuery : List VecRecord → Vec → Nat → List (VecRecord × ℚ))
    (embedQuery : String → Vec) (client_id : String) (store : VectorStore)
    (query : String) (top_k : Nat) : List SearchDoc :=
  searchFromResults (chromaResultOfHits
    (indexQuery (store (textCollectionName client_id)) (embedQuery query) top_k))

/-- retrieval.py `TextRetriever.get_context`: `"\n\n".join(doc["text"] for doc
in self.search(query, top_k))`. -/
def get_context (indexQuery : List VecRecord → Vec → Nat → List (VecRecord × ℚ))
    (embedQuery : String → Vec) (client_id : String) (store : VectorStore)
    (query : String) (top_k : Nat) : String :=
  String.intercalate "\n\n"
    ((search indexQuery embedQuery client_id store query top_k).map SearchDoc.text)

/-! ## Concrete sample collaborators, used by the witnesses -/

/-- A sound nearest-neighbour engine sample: the first `k` records of the
collection, each at distance 0. -/
def sampleIndexQuery : List VecRecord → Vec → Nat → List (VecRecord × ℚ) :=
  fun coll _ k => (coll.take k).map fun r => (r, 0)

/-- A length-preserving batch embedder sample. -/
def sampleEmbedDocs : List String → List Vec := fun l => l.map fun _ => []

/-- A query embedder sample. -/
def sampleEmbedQuery : String → Vec := fun _ => []

/-- A splitter sample producing one chunk. -/
def sampleSplit : String → List String := fun t => [t]

/-! ## Python JSON values

Result type of Python's `json.loads`, also used for the opaque `metadata`
maps stored in the products table. -/

/-- A Python value decoded from JSON: None, bool, int, str, list, dict. -/
inductive Jsonv where
  | null
  | bool (b : Bool)
  | num (n : Int)
  | str (s : String)
  | arr (items : List Jsonv)
  | obj (fields : List (String × Jsonv))

/-! ## database.py : relational store model -/

/-- A row of the `clients` table. -/
structure ClientRow where
  client_id : String
  name : Option String
  created_at : Nat
deriving DecidableEq

/-- A row of the `products` table (the SERIAL surrogate id is irrelevant to
the claims; `UNIQUE(id_produit, client_id)` is carried as an invariant). -/
structure ProductRow where
  id_produit : String
  client_id : String
  source_file : Option String
  content : Option String
  metadata : Jsonv
  created_at : Nat
  updated_at : Nat

/-- The relational store: the two tables of init_database. -/
structure Database where
  clients : List ClientRow
  products : List ProductRow

/-- The payload dict passed to `create_product` / `bulk_upsert_products`:
`id_produit` is required, the rest accessed with `.get`. -/
structure ProductData where
  id_produit : String
  source_file : Option String
  content : Option String
  metadata : Option Jsonv

/-- Python `name or client_id` (database.py create_client): `None` and the
empty string are falsy and fall back to the client id. -/
def pyOrDefault (name : Option String) (dflt : String) : String :=
  match name with
  | none => dflt
  | some s => if s = "" then dflt else s

/-- database.py `create_client`: `INSERT INTO clients (client_id, name)
VALUES (%s, %s) ON CONFLICT (client_id) DO UPDATE SET name = EXCLUDED.name`
with the inserted name `name or client_id`. -/
def create_client (db : Database) (client_id : String) (name : Option String)
    (now : Nat) : Database :=
  let newName := pyOrDefault name client_id
  if db.clients.any fun c => c.client_id == client_id then
    ⟨db.clients.map fun c =>
        if c.client_id == client_id then ⟨c.client_id, some newName, c.created_at⟩
        else c,
     db.products⟩
  else
    ⟨db.clients ++ [⟨client_id, some newName, now⟩], db.products⟩

/-- The `WHERE client_id = .. AND id_produit = ..` / `ON CONFLICT` key test. -/
def keyMatch (client_id id_produit : String) (r : ProductRow) : Bool :=
  r.client_id == client_id && r.id_produit == id_produit

/-- The products upsert of database.py `create_product` /
`bulk_upsert_products`: `INSERT ... ON CONFLICT (id_produit, client_id) DO
UPDATE SET source_file, content, metadata, updated_at = CURRENT_TIMESTAMP`.
On conflict the key columns and `created_at` are untouched; a fresh row gets
both timestamps `now`.  `metadata` defaults to the empty dict
(`product_data.get("metadata", {})`). -/
def upsertProductRow (rows : List ProductRow) (client_id : String)
    (pd : ProductData) (now : Nat) : List ProductRow :=
  if rows.any (keyMatch client_id pd.id_produit) then
    rows.map fun r =>
      if keyMatch client_id pd.id_produit r then
        ⟨r.id_produit, r.client_id, pd.source_file, pd.content,
         pd.metadata.getD (Jsonv.obj []), r.created_at, now⟩
      else r
  else
    rows ++ [⟨pd.id_produit, client_id, pd.source_file, pd.content,
              pd.metadata.getD (Jsonv.obj []), now, now⟩]

/-- database.py `create_product`: upsert the client (no name passed), then
upsert the product row. -/
def create_product (db : Database) (client_id : String) (pd : ProductData)
    (now : Nat) : Database :=
  let db1 := create_client db client_id none now
  ⟨db1.clients, upsertProductRow db1.products client_id pd now⟩

/-- database.py `get_product`: first row matching both key columns, if any. -/
def get_product (db : Database) (client_id id_produit : String) :
    Option ProductRow :=
  db.products.find? (keyMatch client_id id_produit)

/-- database.py `list_products`: rows of the client ordered by `updated_at
DESC`, then `OFFSET`/`LIMIT`. -/
def list_products (db : Database) (client_id : String) (limit offset : Nat) :
    List ProductRow :=
  (((List.insertionSort (fun a b : ProductRow => b.updated_at ≤ a.updated_at)
      (db.products.filter fun r => r.client_id == client_id)).drop offset).take
    limit)

/-- Models SQL `DELETE FROM clients WHERE client_id = %s` together with the
`FOREIGN KEY (client_id) REFERENCES clients(client_id) ON DELETE CASCADE`
declared by init_database (database.py): deleting the clients row also
deletes every products row carrying that client_id. -/
def delete_client_cascade (db : Database) (client_id : String) : Database :=
  ⟨db.clients.filter fun c => !(c.client_id == client_id),
   db.products.filter fun r => !(r.client_id == client_id)⟩

/-- database.py `bulk_upsert_products`: upsert the client (no name passed),
then upsert each product in order; returns `len(products)`. -/
def bulk_upsert_products (db : Database) (client_id : String)
    (products : List ProductData) (now : Nat) : Database × Nat :=
  let db1 := create_client db client_id none now
  (⟨db1.clients,
    products.foldl (fun rows pd => upsertProductRow rows client_id pd now)
      db1.products⟩,
   products.length)

/-- The empty database. -/
def dbEmpty : Database := ⟨[], []⟩

/-- A database holding one client with a display name. -/
def dbNamed : Database := ⟨[⟨"c", some "Fancy Name", 0⟩], []⟩

/-- A sample product payload. -/
def pdSample : ProductData := ⟨"p", none, some "desc", none⟩

/-- The client row as it looks after a product write for tenant "c". -/
def updatedClientRow : ClientRow := ⟨"c", some "c", 0⟩

/-! ## api.py : store operations issued by the product routes -/

/-- An effect on one of the two stores, as issued by an api.py route. -/
inductive RouteOp where
  | dbWrite (client_id id_produit : String)
  | vecDelete (source : String)
  | vecInsert (source : String)
deriving DecidableEq

/-- Python truthiness of the optional `content` field (`if product.content:`):
None and the empty string are falsy. -/
def pyTruthy (s : Option String) : Bool :=
  match s with
  | none => false
  | some t => !decide (t = "")

/-- api.py `create_product` route: `db.create_product(client_id,
product_data)` and then, when `product.content` is truthy,
`ingestion.ingest_text(product.content, source=f"product_\x7bid\x7d")`.
No vector delete is issued. -/
def create_product_route_ops (client_id id_produit : String)
    (content : Option String) : List RouteOp :=
  RouteOp.dbWrite client_id id_produit ::
    (if pyTruthy content then [RouteOp.vecInsert ("product_" ++ id_produit)]
     else [])

/-- api.py `update_product` route: 404 when the product does not exist, else
`db.update_product(...)` and then, when `product.content` is truthy,
`ingestion.collection.delete(where={"source": f"product_\x7bid\x7d"})`
followed by `ingestion.ingest_text(...)` under the same source label. -/
def update_product_route_ops (client_id id_produit : String)
    (content : Option String) (existsInDb : Bool) : List RouteOp :=
  if !existsInDb then []
  else
    RouteOp.dbWrite client_id id_produit ::
      (if pyTruthy content then
        [RouteOp.vecDelete ("product_" ++ id_produit),
         RouteOp.vecInsert ("product_" ++ id_produit)]
       else [])

/-! ## vision_extraction.py : JSON response parsing -/

/-- Python exceptions that `parse_json_response` can let escape (only
`json.JSONDecodeError` is caught inside it). -/
inductive PyErr where
  | attributeError
  | typeError
deriving DecidableEq

/-- JSON whitespace. -/
def isJsonWs : Char → Bool
  | ' ' => true
  | '\n' => true
  | '\t' => true
  | '\r' => true
  | _ => false

/-- Skip leading JSON whitespace. -/
def skipWs : List Char → List Char
  | [] => []
  | c :: cs => if isJsonWs c then skipWs cs else c :: cs

/-- Escape table of JSON string literals, as (escape letter, result) pairs
(the \u form is not needed by any claim; it makes the modelled parse
fail). -/
def escPairs : List (Char × Char) :=
  [('"', '"'), ('\\', '\\'), ('/', '/'), ('n', '\n'), ('t', '\t'),
   ('r', '\r'), ('b', Char.ofNat 8), ('f', Char.ofNat 12)]

/-- Look an escape letter up in the table. -/
def escChar (c : Char) : Option Char :=
  (escPairs.find? fun p => p.1 == c).map Prod.snd

/-- Parse the remainder of a JSON string literal (the opening quote already
consumed), producing its characters and the rest of the input. -/
def parseStrChars : List Char → Option (List Char × List Char)
  | [] => none
  | c :: cs =>
    if c == '"' then some ([], cs)
    else if c == '\\' then
      match cs with
      | [] => none
      | e :: cs2 =>
        match escChar e with
        | none => none
        | some r =>
          match parseStrChars cs2 with
          | none => none
          | some (acc, rest) => some (r :: acc, rest)
    else
      match parseStrChars cs with
      | none => none
      | some (acc, rest) => some (c :: acc, rest)

/-- Numeric value of a digit string. -/
def digitsVal (ds : List Char) : Nat :=
  ds.foldl (fun n c => n * 10 + (c.toNat - 48)) 0

/-- Parse an optionally signed integer literal. -/
def parseIntLit (cs : List Char) : Option (Int × List Char) :=
  match cs with
  | '-' :: rest =>
    let ds := rest.takeWhile Char.isDigit
    if ds.isEmpty then none
    else some (-(Int.ofNat (digitsVal ds)), rest.drop ds.length)
  | _ =>
    let ds := cs.takeWhile Char.isDigit
    if ds.isEmpty then none
    else some (Int.ofNat (digitsVal ds), cs.drop ds.length)

mutual

/-- Modelled from the documented behaviour of Python's `json.loads` (an
external standard-library function): recursive descent over one JSON value,
on the JSON fragment the claims need (numeric literals restricted to
integers).  Fuel decreases on every call; `loads` supplies enough for its
input. -/
def parseVal : Nat → List Char → Option (Jsonv × List Char)
  | 0, _ => none
  | fuel + 1, cs =>
    match skipWs cs with
    | [] => none
    | c :: rest =>
      if c == '[' then
        match parseArrItems fuel rest with
        | none => none
        | some (items, rest2) => some (Jsonv.arr items, rest2)
      else if c == '\x7b' then
        match parseObjFields fuel rest with
        | none => none
        | some (fields, rest2) => some (Jsonv.obj fields, rest2)
      else if c == '"' then
        match parseStrChars rest with
        | none => none
        | some (chars, rest2) => some (Jsonv.str ⟨chars⟩, rest2)
      else if c == 'n' then
        match rest with
        | 'u' :: 'l' :: 'l' :: r => some (Jsonv.null, r)
        | _ => none
      else if c == 't' then
        match rest with
        | 'r' :: 'u' :: 'e' :: r => some (Jsonv.bool true, r)
        | _ => none
      else if c == 'f' then
        match rest with
        | 'a' :: 'l' :: 's' :: 'e' :: r => some (Jsonv.bool false, r)
        | _ => none
      else
        match parseIntLit (c :: rest) with
        | none => none
        | some (n, rest2) => some (Jsonv.num n, rest2)

/-- Items of a JSON array, the opening bracket already consumed. -/
def parseArrItems : Nat → List Char → Option (List Jsonv × List Char)
  | 0, _ => none
  | fuel + 1, cs =>
    match skipWs cs with
    | [] => none
    | c :: rest =>
      if c == ']' then some ([], rest)
      else
        match parseVal fuel (c :: rest) with
        | none => none
        | some (v, rest2) =>
          match parseArrTail fuel rest2 with
          | none => none
          | some (vs, rest3) => some (v :: vs, rest3)

/-- Continuation of a JSON array after one parsed item. -/
def parseArrTail : Nat → List Char → Option (List Jsonv × List Char)
  | 0, _ => none
  | fuel + 1, cs =>
    match skipWs cs with
    | [] => none
    | c :: rest =>
      if c == ']' then some ([], rest)
      else if c == ',' then
        match parseVal fuel rest with
        | none => none
        | some (v, rest2) =>
          match parseArrTail fuel rest2 with
          | none => none
          | some (vs, rest3) => some (v :: vs, rest3)
      else none

/-- Fields of a JSON object, the opening brace already consumed. -/
def parseObjFields : Nat → List Char → Option (List (String × Jsonv) × List Char)
  | 0, _ => none
  | fuel + 1, cs =>
    match skipWs cs with
    | [] => none
    | c :: rest =>
      if c == '\x7d' then some ([], rest)
      else if c == '"' then
        match parseStrChars rest with
        | none => none
        | some (key, rest2) =>
          match skipWs rest2 with
          | ':' :: rest3 =>
            match parseVal fuel rest3 with
            | none => none
            | some (v, rest4) =>
              match parseObjTail fuel rest4 with
              | none => none
              | some (fs, rest5) => some ((⟨key⟩, v) :: fs, rest5)
          | _ => none
      else none

/-- Continuation of a JSON object after one parsed field. -/
def parseObjTail : Nat → List Char → Option (List (String × Jsonv) × List Char)
  | 0, _ => none
  | fuel + 1, cs =>
    match skipWs cs with
    | [] => none
    | c :: rest =>
      if c == '\x7d' then some ([], rest)
      else if c == ',' then
        match skipWs rest with
        | '"' :: rest1 =>
          match parseStrChars rest1 with
          | none => none
          | some (key, rest2) =>
            match skipWs rest2 with
            | ':' :: rest3 =>
              match parseVal fuel rest3 with
              | none => none
              | some (v, rest4) =>
                match parseObjTail fuel rest4 with
                | none => none
                | some (fs, rest5) => some ((⟨key⟩, v) :: fs, rest5)
            | _ => none
        | _ => none
      else none

end

/-- Modelled from the documented behaviour of Python's `json.loads`: parse
the whole string, tolerating trailing whitespace only; `none` stands for
`json.JSONDecodeError`. -/
def loads (s : String) : Option Jsonv :=
  match parseVal (2 * s.length + 8) s.data with
  | none => none
  | some (v, rest) => if (skipWs rest).isEmpty then some v else none

/-- Index of the last ']' of the input, if any. -/
def lastCloseIdx (cs : List Char) : Option Nat :=
  ((cs.enum.filter fun p => p.2 == ']').map Prod.fst).getLast?

/-- The `re.search` scan of parse_json_response with the greedy DOTALL
pattern bracket-dot-star-bracket: the match, when it exists, runs from the
first '[' having a later ']' up to the last ']' of the whole string. -/
def firstArraySpan (s : String) : Option String :=
  match lastCloseIdx s.data with
  | none => none
  | some j =>
    if ((s.data.take j).dropWhile fun c => !(c == '[')).isEmpty then none
    else some ⟨((s.data.take j).dropWhile fun c => !(c == '[')) ++ [']']⟩

/-- Python `str()` on the scalar values that occur in the normalized
metadata; containers are rendered opaquely (no claim inspects them). -/
def pyStr : Jsonv → String
  | Jsonv.null => "None"
  | Jsonv.bool true => "True"
  | Jsonv.bool false => "False"
  | Jsonv.num n => toString n
  | Jsonv.str s => s
  | Jsonv.arr _ => "[...]"
  | Jsonv.obj _ => "\x7b...\x7d"

/-- Python dict `.get(key, default)` on a decoded JSON object. -/
def objGet (fields : List (String × Jsonv)) (key : String) (dflt : Jsonv) :
    Jsonv :=
  match fields.find? fun p => p.1 == key with
  | some p => p.2
  | none => dflt

/-- Python truthiness of a decoded JSON value. -/
def jsonTruthy : Jsonv → Bool
  | Jsonv.null => false
  | Jsonv.bool b => b
  | Jsonv.num n => !decide (n = 0)
  | Jsonv.str s => !decide (s = "")
  | Jsonv.arr l => !l.isEmpty
  | Jsonv.obj f => !f.isEmpty

/-- vision_extraction.py `build_content_text`: each present (truthy) field
rendered with its fixed label in the fixed order, joined by ". ". -/
def build_content_text (fields : List (String × Jsonv)) : String :=
  let pick := fun (key pre suf : String) =>
    let v := objGet fields key Jsonv.null
    if jsonTruthy v then [pre ++ pyStr v ++ suf] else []
  String.intercalate ". "
    (pick "titre" "Produit: " "" ++ pick "marque" "Marque: " "" ++
     pick "description" "Description: " "" ++
     pick "prix_actuel" "Prix: " " EUR" ++
     pick "prix_barre" "Ancien prix: " " EUR" ++
     pick "reduction" "Reduction: " "" ++
     pick "categorie" "Categorie: " "" ++ pick "public_cible" "Pour: " "")

/-- The normalized product record built by `normalize_product`. -/
structure NormProduct where
  id_produit : Jsonv
  source_file : String
  content : String
  metadata : List (String × Jsonv)

/-- vision_extraction.py `normalize_product`: the `.get` calls succeed only
on a dict; on every other decoded value Python raises AttributeError. -/
def normalize_product : Jsonv → Except PyErr NormProduct
  | Jsonv.obj fields =>
    Except.ok
      ⟨objGet fields "id_produit" (Jsonv.str "unknown"),
       "vision_extraction",
       build_content_text fields,
       [("titre_legende", objGet fields "titre" (Jsonv.str "")),
        ("description", objGet fields "description" (Jsonv.str "")),
        ("marque", objGet fields "marque" (Jsonv.str "")),
        ("prix_principal", Jsonv.obj
          [("FLC", Jsonv.str (pyStr (objGet fields "prix_actuel" (Jsonv.str "")))),
           ("PrixDetailsFLc", Jsonv.str "")]),
        ("prix_barre", Jsonv.obj
          [("FLC", Jsonv.str (pyStr (objGet fields "prix_barre" (Jsonv.str "")))),
           ("PrixDetailsFLc", Jsonv.str "")]),
        ("reduction", Jsonv.str (pyStr (objGet fields "reduction" (Jsonv.str "")))),
        ("categorie", objGet fields "categorie" (Jsonv.str "")),
        ("public_cible", objGet fields "public_cible" (Jsonv.str "")),
        ("image_path", Jsonv.str "")]⟩
  | _ => Except.error PyErr.attributeError

/-- vision_extraction.py `normalize_products`: the list comprehension
normalizes left to right; the first exception propagates. -/
def normalize_products : List Jsonv → Except PyErr (List NormProduct)
  | [] => Except.ok []
  | p :: rest =>
    match normalize_product p with
    | Except.error e => Except.error e
    | Except.ok np =>
      match normalize_products rest with
      | Except.error e => Except.error e
      | Except.ok nps => Except.ok (np :: nps)

/-- The whole-response fallback of `parse_json_response`: `json.loads` on the
raw response; a list is normalized, any other value is normalized as a
one-element list, a decode error yields `[]`. -/
def parse_whole (raw : String) : Except PyErr (List NormProduct) :=
  match loads raw with
  | some (Jsonv.arr l) => normalize_products l
  | some v => (normalize_product v).map fun p => [p]
  | none => Except.ok []

/-- vision_extraction.py `parse_json_response`: try the greedy regex span
first and parse it, fall back to parsing the whole response; only JSON
decode errors are caught, exceptions thrown by normalization escape.
(Iterating a non-list — impossible here since the span starts with '[' —
would raise TypeError.) -/
def parse_json_response (raw : String) : Except PyErr (List NormProduct) :=
  match firstArraySpan raw with
  | some sub =>
    match loads sub with
    | some (Jsonv.arr l) => normalize_products l
    | some _ => Except.error PyErr.typeError
    | none => parse_whole raw
  | none => parse_whole raw

/-- A well-formed model answer that contains a JSON array of non-objects. -/
def rawNonObjectArray : String := "[1]"

/-! ## Text splitter model (ingestion.py text_splitter) -/

/-- Modelled from the spec: ingestion.py builds
`RecursiveCharacterTextSplitter(chunk_size=CHUNK_SIZE,
chunk_overlap=CHUNK_OVERLAP)`, a langchain component whose implementation is
not part of this repository.  Following the spec's description of the
splitter contract — "no chunk exceeds `chunk_size` and adjacent chunks share
`chunk_overlap` characters of context" — it is modelled as a sliding window
of width S whose start advances by S - O characters.  Degenerate
configurations (S ≤ O) return the text whole. -/
def chunkText (S O : Nat) (c : List Char) : List (List Char) :=
  if h : c.length ≤ S ∨ S ≤ O then [c]
  else c.take S :: chunkText S O (c.drop (S - O))
termination_by c.length
decreasing_by
  push_neg at h
  simp only [List.length_drop]
  omega

/-- Concatenation with the O overlapping characters removed from every chunk
but the last. -/
def glueChunks (O : Nat) : List (List Char) → List Char
  | [] => []
  | [c] => c
  | c :: d :: rest => c.take (c.length - O) ++ glueChunks O (d :: rest)

/-! # Theorems -/

/-- The collection-name map is injective: equal names force equal tenants. -/
theorem textCollectionName_injective : Function.Injective textCollectionName := by
  intro a b h
  have hd : (textCollectionName a).data = (textCollectionName b).data := by rw [h]
  simp only [textCollectionName, String.data_append] at hd
  exact String.ext (List.append_cancel_left hd)

/-- A pair drawn from `l.enum` has its second component in `l`. -/
theorem snd_mem_of_mem_enum {α : Type} {l : List α} {p : Nat × α}
    (hp : p ∈ l.enum) : p.2 ∈ l := by
  rcases List.mem_iff_getElem?.mp hp with ⟨n, hn⟩
  rw [List.enum, List.getElem?_enumFrom] at hn
  rcases Option.map_eq_some'.mp hn with ⟨a, ha, hpa⟩
  have : p.2 = a := by rw [← hpa]
  rw [this]
  exact List.getElem?_mem ha

/-- Every document text produced by the search post-processing is the document
of one of the engine's hits. -/
theorem mem_searchFromResults_hits (hits : List (VecRecord × ℚ)) (d : SearchDoc)
    (hd : d ∈ searchFromResults (chromaResultOfHits hits)) :
    ∃ h ∈ hits, d.text = h.1.document := by
  unfold searchFromResults chromaResultOfHits at hd
  simp only at hd
  by_cases hemp : (hits.map fun h => h.1.document).isEmpty
  · rw [if_pos hemp] at hd
    exact absurd hd (List.not_mem_nil d)
  · rw [if_neg hemp] at hd
    rcases List.mem_map.mp hd with ⟨p, hp, hfp⟩
    have hsnd : p.2 ∈ hits.map fun h => h.1.document := snd_mem_of_mem_enum hp
    rcases List.mem_map.mp hsnd with ⟨hit, hhit, hdoc⟩
    exact ⟨hit, hhit, by rw [← hfp, ← hdoc]⟩

/-- Results of `search` always come from the searched tenant's own collection,
provided the engine only returns records of the collection it is given. -/
theorem search_mem
    (indexQuery : List VecRecord → Vec → Nat → List (VecRecord × ℚ))
    (hsound : ∀ coll v k, ∀ h ∈ indexQuery coll v k, h.1 ∈ coll)
    (embedQuery : String → Vec) (client_id : String) (store : VectorStore)
    (query : String) (top_k : Nat) :
    ∀ d ∈ search indexQuery embedQuery client_id store query top_k,
      ∃ r ∈ store (textCollectionName client_id), d.text = r.document := by
  intro d hd
  rcases mem_searchFromResults_hits _ d hd with ⟨hit, hhit, htext⟩
  exact ⟨hit.1, hsound _ _ _ hit hhit, htext⟩

/-- C1. Per-tenant text isolation: ingestion and retrieval both resolve the
collection `textCollectionName t = "text_embeddings_" ++ t`; this map is
injective, so for distinct tenants A and B a search through A's retriever is
unchanged by (and never sees) anything ingested through B's handle, and every
result it does return comes from A's own collection. -/
theorem tenant_text_isolation
    (indexQuery : List VecRecord → Vec → Nat → List (VecRecord × ℚ))
    (hsound : ∀ coll v k, ∀ h ∈ indexQuery coll v k, h.1 ∈ coll)
    (embedDocuments : List String → List Vec) (splitText : String → List String)
    (embedQuery : String → Vec) (A B : String) (hAB : A ≠ B)
    (store : VectorStore) (text src query : String) (top_k : Nat) :
    (∀ t, textCollectionName t = "text_embeddings_" ++ t) ∧
    Function.Injective textCollectionName ∧
    textCollectionName A ≠ textCollectionName B ∧
    search indexQuery embedQuery A
        (ingest_text embedDocuments splitText B store text src).1 query top_k
      = search indexQuery embedQuery A store query top_k ∧
    ∀ d ∈ search indexQuery embedQuery A
        (ingest_text embedDocuments splitText B store text src).1 query top_k,
      ∃ r ∈ store (textCollectionName A), d.text = r.document := by
  have hne : textCollectionName A ≠ textCollectionName B :=
    fun h => hAB (textCollectionName_injective h)
  have hframe : (ingest_text embedDocuments splitText B store text src).1
      (textCollectionName A) = store (textCollectionName A) := by
    unfold ingest_text storeAdd
    simp [hne]
  have hsearch : search indexQuery embedQuery A
      (ingest_text embedDocuments splitText B store text src).1 query top_k
      = search indexQuery embedQuery A store query top_k := by
    unfold search
    rw [hframe]
  refine ⟨fun t => rfl, textCollectionName_injective, hne, hsearch, ?_⟩
  rw [hsearch]
  exact search_mem indexQuery hsound embedQuery A store query top_k

/-- End to end, `search` is the engine's hit list in the engine's order:
text the record document, source the record source, score one minus the
reported distance. -/
theorem search_eq_map_hits (hits : List (VecRecord × ℚ)) :
    searchFromResults (chromaResultOfHits hits)
      = hits.map (fun h => ⟨h.1.document, h.1.source, 1 - h.2⟩) := by
  unfold searchFromResults chromaResultOfHits
  simp only
  by_cases he : (hits.map fun h => h.1.document).isEmpty
  · rw [if_pos he]
    have h0 : hits = [] := by
      have := List.isEmpty_iff.mp he
      simpa using this
    subst h0
    simp
  · rw [if_neg he]
    apply List.ext_getElem?
    intro i
    rw [List.getElem?_map, List.getElem?_map, List.enum,
      List.getElem?_enumFrom]
    by_cases hi : i < hits.length
    · have him : i < (hits.map fun h => h.1.document).length := by
        simpa using hi
      rw [List.getElem?_eq_getElem him, List.getElem?_eq_getElem hi]
      simp [List.getElem?_eq_getElem, hi]
    · rw [List.getElem?_eq_none (by simpa using Nat.le_of_not_lt hi),
        List.getElem?_eq_none (Nat.le_of_not_lt hi)]
      simp

/-- C2. `TextRetriever.search` post-processing: given the index's parallel
result lists, the output pairs each document with its metadata source
(default "unknown") and the score `1 - distance`, in the index's order; an
empty result (empty collection, or no documents at all) yields `[]`; and the
full `search` pipeline returns exactly the engine's hits in the engine's
order with no re-ranking. -/
theorem search_score_order (docs : List String) (metas : List (Option String))
    (dists : List ℚ) (hm : metas.length = docs.length)
    (hd : dists.length = docs.length) :
    searchFromResults ⟨[docs], [metas], [dists]⟩
      = (docs.zip (metas.zip dists)).map
          (fun p => ⟨p.1, p.2.1.getD "unknown", 1 - p.2.2⟩) ∧
    searchFromResults ⟨[[]], [[]], [[]]⟩ = [] ∧
    searchFromResults ⟨[], [], []⟩ = [] ∧
    ∀ (indexQuery : List VecRecord → Vec → Nat → List (VecRecord × ℚ))
      (embedQuery : String → Vec) (cid : String) (store : VectorStore)
      (q : String) (k : Nat),
      search indexQuery embedQuery cid store q k
        = (indexQuery (store (textCollectionName cid)) (embedQuery q) k).map
            (fun h => ⟨h.1.document, h.1.source, 1 - h.2⟩) := by
  refine ⟨?_, rfl, rfl, fun iq eq cid store q k => search_eq_map_hits _⟩
  unfold searchFromResults
  simp only
  by_cases he : docs.isEmpty
  · have h0 : docs = [] := List.isEmpty_iff.mp he
    subst h0
    simp
  · rw [if_neg he]
    apply List.ext_getElem?
    intro i
    rw [List.getElem?_map, List.getElem?_map, List.enum, List.getElem?_enumFrom,
      List.zip_eq_zipWith, List.getElem?_zipWith', List.zip_eq_zipWith,
      List.getElem?_zipWith']
    by_cases hi : i < docs.length
    · have him : i < metas.length := hm ▸ hi
      have hid : i < dists.length := hd ▸ hi
      rw [List.getElem?_eq_getElem hi, List.getElem?_eq_getElem him,
        List.getElem?_eq_getElem hid]
      simp [List.getElem?_eq_getElem him, List.getElem?_eq_getElem hid]
    · have him : ¬ i < metas.length := by omega
      have hid : ¬ i < dists.length := by omega
      rw [List.getElem?_eq_none (by omega), List.getElem?_eq_none (by omega),
        List.getElem?_eq_none (show dists.length ≤ i by omega)]
      simp

/-- Concrete index result exercising C2. -/
def c2docs : List String := ["alpha", "beta"]

/-- Concrete metadata sources exercising C2 (one present, one absent). -/
def c2metas : List (Option String) := [some "s1", none]

/-- Concrete distances exercising C2. -/
def c2dists : List ℚ := [0, 1/2]

/-- Closed instance of C2 at a two-hit result. -/
theorem search_score_order_witness :
    c2metas.length = c2docs.length ∧ c2dists.length = c2docs.length ∧
    searchFromResults ⟨[c2docs], [c2metas], [c2dists]⟩
      = (c2docs.zip (c2metas.zip c2dists)).map
          (fun p => ⟨p.1, p.2.1.getD "unknown", 1 - p.2.2⟩) :=
  ⟨by decide, by decide,
    (search_score_order c2docs c2metas c2dists (by decide) (by decide)).1⟩

/-- C3. `ingest_text` splits the content into n chunks, embeds them with one
batch call, writes exactly one record per chunk — id `source ++ "_" ++ i`,
document the i-th chunk, embedding the i-th vector of the single batch
result, metadata source `source` — appended to the tenant's collection, and
returns n; no other collection changes. -/
theorem ingest_text_spec
    (embedDocuments : List String → List Vec) (splitText : String → List String)
    (hlen : ∀ l, (embedDocuments l).length = l.length)
    (client_id : String) (store : VectorStore) (text source : String) :
    (ingest_text embedDocuments splitText client_id store text source).2
      = (splitText text).length ∧
    (ingest_text embedDocuments splitText client_id store text source).1
        (textCollectionName client_id)
      = store (textCollectionName client_id)
        ++ (List.range (splitText text).length).map (fun i =>
             ⟨source ++ "_" ++ toString i, (splitText text).getD i "",
              (embedDocuments (splitText text)).getD i [], source⟩) ∧
    ∀ name, name ≠ textCollectionName client_id →
      (ingest_text embedDocuments splitText client_id store text source).1 name
        = store name := by
  refine ⟨rfl, ?_, ?_⟩
  · show storeAdd store (textCollectionName client_id) _ (textCollectionName client_id) = _
    unfold storeAdd
    rw [if_pos rfl]
    congr 1
    unfold zip4Records
    apply List.ext_getElem?
    intro i
    rw [List.getElem?_map, List.getElem?_map, List.zip_eq_zipWith,
      List.getElem?_zipWith', List.zip_eq_zipWith, List.getElem?_zipWith',
      List.zip_eq_zipWith, List.getElem?_zipWith', List.getElem?_map]
    by_cases hi : i < (splitText text).length
    · have hie : i < (embedDocuments (splitText text)).length := by
        rw [hlen]; exact hi
      rw [List.getElem?_eq_getElem hi, List.getElem?_eq_getElem hie,
        List.getElem?_eq_getElem (show i < (List.range (splitText text).length).length by
          simpa using hi),
        List.getElem?_replicate]
      simp [List.getElem?_eq_getElem hi, List.getElem?_eq_getElem hie, hi]
    · have h1 : (splitText text)[i]? = none :=
        List.getElem?_eq_none (Nat.le_of_not_lt hi)
      have h2 : (List.range (splitText text).length)[i]? = none :=
        List.getElem?_eq_none (by simpa using Nat.le_of_not_lt hi)
      rw [h1, h2]
      simp
  · intro name hname
    show storeAdd store (textCollectionName client_id) _ name = _
    unfold storeAdd
    rw [if_neg hname]

/-- Closed instance of C3: one chunk ingested, chunk count 1 returned. -/
theorem ingest_text_spec_witness :
    (ingest_text sampleEmbedDocs sampleSplit "A" emptyStore "hello" "s").2 = 1 := by
  have h := (ingest_text_spec sampleEmbedDocs sampleSplit
    (fun l => by simp [sampleEmbedDocs]) "A" emptyStore "hello" "s").1
  simpa [sampleSplit] using h

/-- The accumulator loop of `String.intercalate` is a left fold that appends
the separator before each further element. -/
theorem intercalate_go_foldl (s : String) (rest : List String) :
    ∀ acc, String.intercalate.go acc s rest
      = rest.foldl (fun a b => a ++ s ++ b) acc := by
  induction rest with
  | nil => intro acc; rfl
  | cons a as ih => intro acc; exact (ih (acc ++ s ++ a))

/-- C9. `get_context` is exactly the search result texts joined in result
order by the blank-line separator, and an empty search result yields the
empty string. -/
theorem get_context_spec
    (indexQuery : List VecRecord → Vec → Nat → List (VecRecord × ℚ))
    (embedQuery : String → Vec) (client_id : String) (store : VectorStore)
    (query : String) (top_k : Nat) :
    get_context indexQuery embedQuery client_id store query top_k
      = String.intercalate "\n\n"
          ((search indexQuery embedQuery client_id store query top_k).map
            SearchDoc.text) ∧
    (search indexQuery embedQuery client_id store query top_k = [] →
      get_context indexQuery embedQuery client_id store query top_k = "") ∧
    ∀ t rest,
      (search indexQuery embedQuery client_id store query top_k).map
          SearchDoc.text = t :: rest →
      get_context indexQuery embedQuery client_id store query top_k
        = rest.foldl (fun a b => a ++ "\n\n" ++ b) t := by
  refine ⟨rfl, ?_, ?_⟩
  · intro hnil
    unfold get_context
    rw [hnil]
    rfl
  · intro t rest hcons
    unfold get_context
    rw [hcons]
    show String.intercalate.go t "\n\n" rest = _
    exact intercalate_go_foldl _ _ _

/-- Closed instance of C9: empty search result gives the empty context. -/
theorem get_context_spec_witness :
    get_context sampleIndexQuery sampleEmbedQuery "A" emptyStore "q" 3 = "" :=
  (get_context_spec sampleIndexQuery sampleEmbedQuery "A" emptyStore "q" 3).2.1
    (by rfl)

/-- Closed instance of C1: tenant "B" ingests into an empty store; tenant
"A"'s search is the same as before the ingestion. -/
theorem tenant_text_isolation_witness :
    search sampleIndexQuery sampleEmbedQuery "A"
        (ingest_text sampleEmbedDocs sampleSplit "B" emptyStore "hello" "s").1
        "sky" 5
      = search sampleIndexQuery sampleEmbedQuery "A" emptyStore "sky" 5 :=
  (tenant_text_isolation sampleIndexQuery
    (fun coll v k h hh => by
      rcases List.mem_map.mp hh with ⟨r, hr, hrh⟩
      rw [← hrh]
      exact List.mem_of_mem_take hr)
    sampleEmbedDocs sampleSplit sampleEmbedQuery "A" "B" (by decide)
    emptyStore "hello" "s" "sky" 5).2.2.2.1

/-- The per-row update of the products upsert does not change the key
columns, so the key test composed with it is the key test itself. -/
theorem keyMatch_comp_update (client_id : String) (pd : ProductData)
    (now : Nat) :
    (keyMatch client_id pd.id_produit ∘ fun r : ProductRow =>
      if keyMatch client_id pd.id_produit r then
        (⟨r.id_produit, r.client_id, pd.source_file, pd.content,
          pd.metadata.getD (Jsonv.obj []), r.created_at, now⟩ : ProductRow)
      else r)
    = keyMatch client_id pd.id_produit := by
  funext r
  by_cases h : keyMatch client_id pd.id_produit r
  · simp only [Function.comp_apply, if_pos h]
    rfl
  · simp only [Function.comp_apply, if_neg h]

/-- After an upsert there is exactly one row with the upserted key, provided
the `UNIQUE(id_produit, client_id)` invariant held before. -/
theorem upsert_countP (rows : List ProductRow) (client_id : String)
    (pd : ProductData) (now : Nat)
    (hwf : rows.countP (keyMatch client_id pd.id_produit) ≤ 1) :
    (upsertProductRow rows client_id pd now).countP
      (keyMatch client_id pd.id_produit) = 1 := by
  unfold upsertProductRow
  by_cases hany : rows.any (keyMatch client_id pd.id_produit)
  · rw [if_pos hany, List.countP_map, keyMatch_comp_update]
    have hgt : 0 < rows.countP (keyMatch client_id pd.id_produit) :=
      List.countP_pos_iff.mpr (by simpa using List.any_eq_true.mp hany)
    omega
  · rw [if_neg hany, List.countP_append]
    have h0 : rows.countP (keyMatch client_id pd.id_produit) = 0 :=
      List.countP_eq_zero.mpr fun a ha hka =>
        hany (List.any_eq_true.mpr ⟨a, ha, hka⟩)
    rw [h0]
    simp [List.countP_cons, keyMatch]

/-- After an upsert, looking the key up finds a row carrying the payload's
non-key fields, the looked-up key, and `updated_at = now`. -/
theorem upsert_find (rows : List ProductRow) (client_id : String)
    (pd : ProductData) (now : Nat) :
    ∃ r, (upsertProductRow rows client_id pd now).find?
        (keyMatch client_id pd.id_produit) = some r ∧
      r.id_produit = pd.id_produit ∧ r.client_id = client_id ∧
      r.source_file = pd.source_file ∧ r.content = pd.content ∧
      r.metadata = pd.metadata.getD (Jsonv.obj []) ∧ r.updated_at = now := by
  unfold upsertProductRow
  by_cases hany : rows.any (keyMatch client_id pd.id_produit)
  · rw [if_pos hany, List.find?_map, keyMatch_comp_update]
    have hsome : (rows.find? (keyMatch client_id pd.id_produit)).isSome :=
      List.find?_isSome.mpr (by simpa using List.any_eq_true.mp hany)
    rcases Option.isSome_iff_exists.mp hsome with ⟨r₀, hf₀⟩
    have hk₀ : keyMatch client_id pd.id_produit r₀ := List.find?_some hf₀
    have hkey : r₀.client_id = client_id ∧ r₀.id_produit = pd.id_produit := by
      have := hk₀
      unfold keyMatch at this
      simpa using this
    refine ⟨⟨r₀.id_produit, r₀.client_id, pd.source_file, pd.content,
      pd.metadata.getD (Jsonv.obj []), r₀.created_at, now⟩, ?_,
      hkey.2, hkey.1, rfl, rfl, rfl, rfl⟩
    rw [hf₀]
    simp only [Option.map_some']
    rw [if_pos hk₀]
  · rw [if_neg hany, List.find?_append]
    have hnone : rows.find? (keyMatch client_id pd.id_produit) = none :=
      List.find?_eq_none.mpr fun x hx hk =>
        hany (List.any_eq_true.mpr ⟨x, hx, hk⟩)
    rw [hnone]
    refine ⟨⟨pd.id_produit, client_id, pd.source_file, pd.content,
      pd.metadata.getD (Jsonv.obj []), now, now⟩, ?_,
      rfl, rfl, rfl, rfl, rfl, rfl⟩
    simp [List.find?_cons, keyMatch]

/-- `create_client` only touches the clients table. -/
theorem create_client_products (db : Database) (client_id : String)
    (name : Option String) (now : Nat) :
    (create_client db client_id name now).products = db.products := by
  unfold create_client
  by_cases h : db.clients.any fun c => c.client_id == client_id
  · rw [if_pos h]
  · rw [if_neg h]

/-- The products table after `create_product` is the upsert of the previous
products table. -/
theorem create_product_products (db : Database) (client_id : String)
    (pd : ProductData) (now : Nat) :
    (create_product db client_id pd now).products
      = upsertProductRow db.products client_id pd now := by
  show upsertProductRow (create_client db client_id none now).products
      client_id pd now = _
  rw [create_client_products]

/-- C4. Product upsert is idempotent on (product_id, client_id): two
`create_product` calls with the identical payload at times t₁ < t₂ leave
exactly one row for that key; its key columns are unchanged, its non-key
columns equal the payload, and `updated_at` is refreshed on every upsert,
hence strictly increasing across the two calls. -/
theorem create_product_idempotent (db : Database) (client_id : String)
    (pd : ProductData) (t₁ t₂ : Nat) (ht : t₁ < t₂)
    (hwf : db.products.countP (keyMatch client_id pd.id_produit) ≤ 1) :
    (create_product (create_product db client_id pd t₁) client_id pd t₂).products.countP
        (keyMatch client_id pd.id_produit) = 1 ∧
    ∃ r₁ r₂,
      get_product (create_product db client_id pd t₁) client_id pd.id_produit
        = some r₁ ∧
      get_product (create_product (create_product db client_id pd t₁)
          client_id pd t₂) client_id pd.id_produit = some r₂ ∧
      r₂.id_produit = pd.id_produit ∧ r₂.client_id = client_id ∧
      r₂.source_file = pd.source_file ∧ r₂.content = pd.content ∧
      r₂.metadata = pd.metadata.getD (Jsonv.obj []) ∧
      r₁.updated_at = t₁ ∧ r₂.updated_at = t₂ ∧
      r₁.updated_at < r₂.updated_at := by
  have hp1 := create_product_products db client_id pd t₁
  have hp2 := create_product_products (create_product db client_id pd t₁)
    client_id pd t₂
  have hc1 := upsert_countP db.products client_id pd t₁ hwf
  rcases upsert_find db.products client_id pd t₁ with
    ⟨r₁, hf₁, _, _, _, _, _, hu₁⟩
  rcases upsert_find (upsertProductRow db.products client_id pd t₁) client_id
    pd t₂ with ⟨r₂, hf₂, hid₂, hcid₂, hsf₂, hct₂, hmd₂, hu₂⟩
  refine ⟨?_, r₁, r₂, ?_, ?_, hid₂, hcid₂, hsf₂, hct₂, hmd₂, hu₁, hu₂,
    by omega⟩
  · rw [hp2, hp1]
    exact upsert_countP _ client_id pd t₂ (by rw [hp1] at hp2; rw [hc1])
  · unfold get_product
    rw [hp1]
    exact hf₁
  · unfold get_product
    rw [hp2, hp1]
    exact hf₂

/-- Closed instance of C4: two identical upserts into the empty database
leave one row for the key. -/
theorem create_product_idempotent_witness :
    (create_product (create_product dbEmpty "c" pdSample 0) "c" pdSample
        1).products.countP (keyMatch "c" pdSample.id_produit) = 1 :=
  (create_product_idempotent dbEmpty "c" pdSample 0 1 (by decide)
    (by decide)).1

/-- C7. Deleting a client cascades to its products: afterwards
`list_products` for that client is empty and `get_product` misses for every
product id. -/
theorem delete_client_cascade_spec (db : Database) (client_id : String)
    (limit offset : Nat) :
    list_products (delete_client_cascade db client_id) client_id limit offset
      = [] ∧
    ∀ id_produit,
      get_product (delete_client_cascade db client_id) client_id id_produit
        = none := by
  constructor
  · unfold list_products delete_client_cascade
    have hfil : ((db.products.filter fun r => !(r.client_id == client_id)).filter
        fun r => r.client_id == client_id) = [] := by
      rw [List.filter_eq_nil_iff]
      intro a ha
      have h2 := (List.mem_filter.mp ha).2
      simpa using h2
    simp only at hfil ⊢
    rw [hfil]
    simp
  · intro pid
    unfold get_product delete_client_cascade
    rw [List.find?_eq_none]
    intro x hx
    have h2 := (List.mem_filter.mp hx).2
    unfold keyMatch
    simp at h2 ⊢
    intro hcid
    exact absurd hcid h2

/-- C10. Every product write upserts the clients row with the name forced to
the client id: after `create_product` or `bulk_upsert_products` the clients
row for the tenant exists and its name is the client id itself, overwriting
any previous display name. -/
theorem product_write_resets_client_name (db : Database) (client_id : String)
    (pd : ProductData) (prods : List ProductData) (now : Nat) :
    (∀ c ∈ (create_product db client_id pd now).clients,
        c.client_id = client_id → c.name = some client_id) ∧
    (∃ c ∈ (create_product db client_id pd now).clients,
        c.client_id = client_id) ∧
    (∀ c ∈ (bulk_upsert_products db client_id prods now).1.clients,
        c.client_id = client_id → c.name = some client_id) ∧
    (∃ c ∈ (bulk_upsert_products db client_id prods now).1.clients,
        c.client_id = client_id) := by
  have hmain : (∀ c ∈ (create_client db client_id none now).clients,
      c.client_id = client_id → c.name = some client_id) ∧
      ∃ c ∈ (create_client db client_id none now).clients,
        c.client_id = client_id := by
    unfold create_client
    simp only [pyOrDefault]
    by_cases hany : db.clients.any fun c => c.client_id == client_id
    · rw [if_pos hany]
      constructor
      · intro c hc hcid
        rcases List.mem_map.mp hc with ⟨c₀, hc₀, hfc⟩
        by_cases h : c₀.client_id == client_id
        · rw [if_pos h] at hfc
          rw [← hfc]
        · rw [if_neg h] at hfc
          rw [← hfc] at hcid
          exact absurd (by simp [hcid]) h
      · rcases List.any_eq_true.mp hany with ⟨c₀, hc₀, hk⟩
        refine ⟨⟨c₀.client_id, some client_id, c₀.created_at⟩,
          List.mem_map.mpr ⟨c₀, hc₀, by rw [if_pos hk]⟩, by simpa using hk⟩
    · rw [if_neg hany]
      constructor
      · intro c hc hcid
        rcases List.mem_append.mp hc with h | h
        · exact absurd (List.any_eq_true.mpr ⟨c, h, by simp [hcid]⟩) hany
        · have hc1 : c = ⟨client_id, some client_id, now⟩ := by simpa using h
          rw [hc1]
      · exact ⟨⟨client_id, some client_id, now⟩,
          List.mem_append.mpr (Or.inr (by simp)), rfl⟩
  have hclients1 : (create_product db client_id pd now).clients
      = (create_client db client_id none now).clients := rfl
  have hclients2 : (bulk_upsert_products db client_id prods now).1.clients
      = (create_client db client_id none now).clients := rfl
  rw [hclients1, hclients2]
  exact ⟨hmain.1, hmain.2, hmain.1, hmain.2⟩

/-- Closed instance of C10: after a product write for tenant "c", whose row
previously carried the display name "Fancy Name", the row's name is "c". -/
theorem product_write_resets_client_name_witness :
    updatedClientRow.name = some "c" :=
  (product_write_resets_client_name dbNamed "c" pdSample [] 5).1
    updatedClientRow (by decide) (by decide)

/-- Counterexample to C5 as stated: the create route with content present
issues no vector delete at all — it writes the row and then inserts fresh
chunk vectors directly. -/
theorem create_route_inserts_without_delete :
    RouteOp.vecInsert ("product_" ++ "p") ∈
        create_product_route_ops "c" "p" (some "text") ∧
    RouteOp.vecDelete ("product_" ++ "p") ∉
        create_product_route_ops "c" "p" (some "text") := by
  decide

/-- C5 amended. With a truthy content payload, the update route writes the
product row first, then deletes all vector records with source
`"product_" ++ id` and re-inserts fresh chunk vectors under that label; the
create route writes the row and then inserts fresh chunk vectors under that
label without deleting existing ones. -/
theorem product_routes_vector_ops (client_id id_produit c : String)
    (hc : c ≠ "") :
    update_product_route_ops client_id id_produit (some c) true
      = [RouteOp.dbWrite client_id id_produit,
         RouteOp.vecDelete ("product_" ++ id_produit),
         RouteOp.vecInsert ("product_" ++ id_produit)] ∧
    create_product_route_ops client_id id_produit (some c)
      = [RouteOp.dbWrite client_id id_produit,
         RouteOp.vecInsert ("product_" ++ id_produit)] := by
  have htruthy : pyTruthy (some c) = true := by
    simp [pyTruthy, hc]
  constructor
  · unfold update_product_route_ops
    rw [htruthy]
    rfl
  · unfold create_product_route_ops
    rw [htruthy]
    rfl

/-- Closed instance of the amended C5 at a concrete update request. -/
theorem product_routes_vector_ops_witness :
    update_product_route_ops "c" "p" (some "text") true
      = [RouteOp.dbWrite "c" "p",
         RouteOp.vecDelete ("product_" ++ "p"),
         RouteOp.vecInsert ("product_" ++ "p")] :=
  (product_routes_vector_ops "c" "p" "text" (by decide)).1

/-- The splitter never produces an empty chunk list. -/
theorem chunkText_ne_nil (S O : Nat) (c : List Char) : chunkText S O c ≠ [] := by
  unfold chunkText
  split <;> simp

/-- The first chunk of a split starts with the first O characters of the
text being split. -/
theorem chunkText_head_take (S O : Nat) (hO : O < S) (d : List Char) :
    ∀ b t, chunkText S O d = b :: t → b.take O = d.take O := by
  intro b t h
  unfold chunkText at h
  split at h
  · cases h
    rfl
  · cases h
    rw [List.take_take, Nat.min_eq_left (le_of_lt hO)]

/-- C8. For chunk size S and overlap O (O < S, as in the 1000/200 config):
every chunk the splitter produces has length at most S; each chunk's O-long
suffix region equals the next chunk's O-long prefix (adjacent chunks share O
characters of context); and concatenating the chunks with the overlap
removed reconstructs the original text exactly. -/
theorem chunk_split_spec (S O : Nat) (hO : O < S) (c : List Char) :
    (∀ ch ∈ chunkText S O c, ch.length ≤ S) ∧
    List.Chain' (fun a b => a.drop (a.length - O) = b.take O)
      (chunkText S O c) ∧
    glueChunks O (chunkText S O c) = c := by
  induction c using chunkText.induct S O with
  | case1 c h =>
    have hc : c.length ≤ S := h.resolve_right (Nat.not_le.mpr hO)
    rw [chunkText, dif_pos h]
    refine ⟨?_, List.chain'_singleton c, rfl⟩
    intro ch hch
    rw [List.mem_singleton.mp hch]
    exact hc
  | case2 c h ih =>
    push_neg at h
    obtain ⟨h1, h2⟩ := h
    obtain ⟨ihbound, ihchain, ihglue⟩ := ih
    have hrw : chunkText S O c = c.take S :: chunkText S O (c.drop (S - O)) := by
      rw [chunkText]
      rw [dif_neg (by omega)]
    have hlen : (c.take S).length = S := by
      simp only [List.length_take]
      omega
    rw [hrw]
    refine ⟨?_, ?_, ?_⟩
    · intro ch hch
      rcases List.mem_cons.mp hch with hh | hh
      · rw [hh, hlen]
      · exact ihbound ch hh
    · rw [List.chain'_cons']
      refine ⟨?_, ihchain⟩
      intro b hb
      rcases hx : chunkText S O (c.drop (S - O)) with _ | ⟨b', t'⟩
      · exact absurd hx (chunkText_ne_nil S O _)
      · rw [hx] at hb
        simp only [List.head?_cons, Option.mem_def, Option.some_inj] at hb
        subst hb
        rw [hlen, List.drop_take, chunkText_head_take S O hO _ b' t' hx]
        congr 1
        omega
    · rcases hx : chunkText S O (c.drop (S - O)) with _ | ⟨b', t'⟩
      · exact absurd hx (chunkText_ne_nil S O _)
      · rw [hx] at ihglue
        show (c.take S).take ((c.take S).length - O) ++ glueChunks O (b' :: t')
            = c
        rw [ihglue, hlen, List.take_take,
          Nat.min_eq_left (by omega : S - O ≤ S)]
        exact List.take_append_drop (S - O) c

/-- Closed instance of C8: splitting an 8-character text with S = 5, O = 2
reconstructs it exactly. -/
theorem chunk_split_spec_witness :
    glueChunks 2 (chunkText 5 2 ("abcdefgh".data)) = "abcdefgh".data :=
  (chunk_split_spec 5 2 (by decide) ("abcdefgh".data)).2.2

/-- `normalize_product` raises nothing but AttributeError. -/
theorem normalize_product_err : ∀ (p : Jsonv) (e : PyErr),
    normalize_product p = Except.error e → e = PyErr.attributeError
  | Jsonv.null, _, h => (Except.error.inj h).symm
  | Jsonv.bool _, _, h => (Except.error.inj h).symm
  | Jsonv.num _, _, h => (Except.error.inj h).symm
  | Jsonv.str _, _, h => (Except.error.inj h).symm
  | Jsonv.arr _, _, h => (Except.error.inj h).symm
  | Jsonv.obj _, _, h => absurd h (fun hh => Except.noConfusion hh)

/-- `normalize_products` raises nothing but AttributeError. -/
theorem normalize_products_err : ∀ (l : List Jsonv) (e : PyErr),
    normalize_products l = Except.error e → e = PyErr.attributeError := by
  intro l
  induction l with
  | nil =>
    intro e h
    exact absurd h (by simp [normalize_products])
  | cons p rest ih =>
    intro e h
    unfold normalize_products at h
    cases hp : normalize_product p with
    | error e1 =>
      rw [hp] at h
      have he : e = e1 := (Except.error.inj h).symm
      rw [he]
      exact normalize_product_err p e1 hp
    | ok np =>
      rw [hp] at h
      cases hr : normalize_products rest with
      | error e2 =>
        rw [hr] at h
        have he : e = e2 := (Except.error.inj h).symm
        rw [he]
        exact ih e2 hr
      | ok nps =>
        rw [hr] at h
        exact absurd h (fun hh => Except.noConfusion hh)

/-- Wrapping a single normalized product in a list raises nothing but
AttributeError. -/
theorem map_singleton_err (v : Jsonv) (e : PyErr)
    (h : (normalize_product v).map (fun p => [p]) = Except.error e) :
    e = PyErr.attributeError := by
  cases hnp : normalize_product v with
  | error e1 =>
    rw [hnp] at h
    have he : e = e1 := (Except.error.inj h).symm
    rw [he]
    exact normalize_product_err v e1 hnp
  | ok np =>
    rw [hnp] at h
    exact absurd h (fun hh => Except.noConfusion hh)

/-- The whole-response fallback raises nothing but AttributeError. -/
theorem parse_whole_err (s : String) :
    ∀ e, parse_whole s = Except.error e → e = PyErr.attributeError := by
  intro e h
  unfold parse_whole at h
  cases hl : loads s with
  | none =>
    rw [hl] at h
    exact absurd h (fun hh => Except.noConfusion hh)
  | some v =>
    rw [hl] at h
    cases v with
    | arr l => exact normalize_products_err l e h
    | null => exact map_singleton_err _ e h
    | bool b => exact map_singleton_err _ e h
    | num n => exact map_singleton_err _ e h
    | str s2 => exact map_singleton_err _ e h
    | obj f => exact map_singleton_err _ e h

/-- A decode error on the whole response degrades to the empty list. -/
theorem parse_whole_none (s : String) (hl : loads s = none) :
    parse_whole s = Except.ok [] := by
  unfold parse_whole
  rw [hl]

/-- The head surviving `dropWhile` fails the predicate. -/
theorem dropWhile_head_not {α : Type} (p : α → Bool) (l : List α) :
    ∀ c rest, l.dropWhile p = c :: rest → p c = false := by
  induction l with
  | nil =>
    intro c rest h
    exact absurd h (by simp [List.dropWhile])
  | cons a as ih =>
    intro c rest h
    rw [List.dropWhile_cons] at h
    by_cases hpa : p a
    · rw [if_pos hpa] at h
      exact ih c rest h
    · rw [if_neg hpa] at h
      have hca : a = c := (List.cons.inj h).1
      cases hb : p a with
      | true => exact absurd hb hpa
      | false => rw [← hca]; exact hb


/-- The span the regex scan returns always starts with '['. -/
theorem firstArraySpan_bracket (s sub : String)
    (h : firstArraySpan s = some sub) : ∃ cs, sub.data = '[' :: cs := by
  unfold firstArraySpan at h
  cases hj : lastCloseIdx s.data with
  | none =>
    rw [hj] at h
    exact absurd h (fun hh => Option.noConfusion hh)
  | some j =>
    rw [hj] at h
    have h2 : (if ((s.data.take j).dropWhile fun c => !(c == '[')).isEmpty
        then none
        else some (⟨((s.data.take j).dropWhile fun c => !(c == '[')) ++ [']']⟩ :
          String)) = some sub := h
    by_cases hb : ((s.data.take j).dropWhile fun c => !(c == '[')).isEmpty
    · rw [if_pos hb] at h2
      exact absurd h2 (fun hh => Option.noConfusion hh)
    · rw [if_neg hb] at h2
      have hsub := Option.some.inj h2
      cases hd : (s.data.take j).dropWhile (fun c => !(c == '[')) with
      | nil => exact absurd (by rw [hd]; rfl) hb
      | cons c rest =>
        have hc : (!(c == '[')) = false := dropWhile_head_not _ _ c rest hd
        have hc2 : c = '[' := by
          have hbeq : (c == '[') = true := by
            cases hcc : (c == '[') with
            | true => rfl
            | false => rw [hcc] at hc; exact absurd hc (by simp)
          exact eq_of_beq hbeq
        refine ⟨rest ++ [']'], ?_⟩
        rw [← hsub]
        show ((s.data.take j).dropWhile fun c => !(c == '[')) ++ [']']
            = '[' :: (rest ++ [']'])
        rw [hd, hc2]
        rfl

/-- A parse that starts at a '[' can only produce an array value. -/
theorem parseVal_bracket (fuel : Nat) (rest : List Char) (v : Jsonv)
    (r : List Char) (h : parseVal fuel ('[' :: rest) = some (v, r)) :
    ∃ l, v = Jsonv.arr l := by
  cases fuel with
  | zero => exact absurd h (by simp [parseVal])
  | succ fuel =>
    have hstep : parseVal (fuel + 1) ('[' :: rest)
        = (match parseArrItems fuel rest with
           | none => none
           | some (items, rest2) => some (Jsonv.arr items, rest2)) := rfl
    rw [hstep] at h
    cases harr : parseArrItems fuel rest with
    | none =>
      rw [harr] at h
      exact absurd h (fun hh => Option.noConfusion hh)
    | some pr =>
      rcases pr with ⟨items, rest2⟩
      rw [harr] at h
      have hp := Option.some.inj h
      exact ⟨items, (congrArg Prod.fst hp).symm⟩

/-- `loads` on a string that starts with '[' yields an array or fails. -/
theorem loads_bracket (s : String) (cs : List Char) (hs : s.data = '[' :: cs)
    (v : Jsonv) (h : loads s = some v) : ∃ l, v = Jsonv.arr l := by
  unfold loads at h
  rw [hs] at h
  cases hp : parseVal (2 * s.length + 8) ('[' :: cs) with
  | none =>
    rw [hp] at h
    exact absurd h (fun hh => Option.noConfusion hh)
  | some pr =>
    rcases pr with ⟨v2, rest⟩
    rw [hp] at h
    have h2 : (if (skipWs rest).isEmpty then some v2 else none) = some v := h
    rcases parseVal_bracket _ _ _ _ hp with ⟨l, hl⟩
    by_cases hr : (skipWs rest).isEmpty
    · rw [if_pos hr] at h2
      have hv := Option.some.inj h2
      exact ⟨l, by rw [← hv, hl]⟩
    · rw [if_neg hr] at h2
      exact absurd h2 (fun hh => Option.noConfusion hh)

/-- When the regex scan finds a span, `parse_json_response` dispatches on
parsing that span. -/
theorem parse_json_response_eq_span (s sub : String)
    (hspan : firstArraySpan s = some sub) :
    parse_json_response s
      = match loads sub with
        | some (Jsonv.arr l) => normalize_products l
        | some _ => Except.error PyErr.typeError
        | none => parse_whole s := by
  unfold parse_json_response
  rw [hspan]

/-- When the regex scan finds nothing, `parse_json_response` is the
whole-response fallback. -/
theorem parse_json_response_eq_whole (s : String)
    (hspan : firstArraySpan s = none) :
    parse_json_response s = parse_whole s := by
  unfold parse_json_response
  rw [hspan]

/-- Counterexample to C6 as stated: on the response "[1]" — a JSON array
whose element is not an object — `parse_json_response` raises
AttributeError instead of returning a list, so it does raise on some model
output. -/
theorem parse_json_response_raises :
    parse_json_response rawNonObjectArray
      = Except.error PyErr.attributeError := rfl

/-- C6 amended. `parse_json_response` extracts the greedy regex span from
the first eligible '[' to the last ']' and parses it as JSON; when that
parse succeeds the span's array is normalized; when it fails the whole
response is parsed instead; when neither parse succeeds the result is the
empty list. JSON decode errors never escape — the only exception that does
is the AttributeError normalization raises on a non-object array element. -/
theorem parse_json_response_spec (s : String) :
    (∀ e, parse_json_response s = Except.error e →
      e = PyErr.attributeError) ∧
    (firstArraySpan s = none → loads s = none →
      parse_json_response s = Except.ok []) ∧
    (∀ sub, firstArraySpan s = some sub → loads sub = none →
      loads s = none → parse_json_response s = Except.ok []) ∧
    (∀ sub l, firstArraySpan s = some sub →
      loads sub = some (Jsonv.arr l) →
      parse_json_response s = normalize_products l) := by
  refine ⟨?_, ?_, ?_, ?_⟩
  · intro e h
    cases hspan : firstArraySpan s with
    | none =>
      rw [parse_json_response_eq_whole s hspan] at h
      exact parse_whole_err s e h
    | some sub =>
      rw [parse_json_response_eq_span s sub hspan] at h
      rcases firstArraySpan_bracket s sub hspan with ⟨cs, hsub⟩
      cases hl : loads sub with
      | none =>
        rw [hl] at h
        exact parse_whole_err s e h
      | some v =>
        rcases loads_bracket sub cs hsub v hl with ⟨l, hvl⟩
        rw [hl, hvl] at h
        exact normalize_products_err l e h
  · intro hspan hl
    rw [parse_json_response_eq_whole s hspan]
    exact parse_whole_none s hl
  · intro sub hspan hlsub hl
    rw [parse_json_response_eq_span s sub hspan, hlsub]
    exact parse_whole_none s hl
  · intro sub l hspan hlsub
    rw [parse_json_response_eq_span s sub hspan, hlsub]

/-- Closed instance of the amended C6: a response containing no JSON at all
yields the empty product list without raising. -/
theorem parse_json_response_spec_witness :
    parse_json_response "no json here" = Except.ok [] :=
  (parse_json_response_spec "no json here").2.1 (by rfl) (by rfl)

end GUT
